import Mathlib

/-
  Verification development for the VeichiTrainer metric calibration and
  measurement core (src/app/lib/aruco_utils.py and src/app/app.py).

  Modelling conventions: pixel coordinates are rationals (floating point
  values modelled exactly); derived metric quantities (pixel lengths,
  pixels-per-mm, millimetre values) are reals, with Euclidean distances via
  Real.sqrt.  External cv2 collaborators (marker detection, image warping)
  are passed in as functions; images are an abstract type parameter.
-/

namespace VT

/-- Euclidean distance between two pixel points: np.linalg.norm (p - q). -/
noncomputable def pxDist (p q : ℚ × ℚ) : ℝ :=
  Real.sqrt (((p.1 - q.1 : ℚ) : ℝ) ^ 2 + ((p.2 - q.2 : ℚ) : ℝ) ^ 2)

/-- One detected ArUco marker: its 4 ordered corner points (c[0] in the
source; the numeric id is dropped, it is never used by the core). -/
structure Marker where
  p0 : ℚ × ℚ
  p1 : ℚ × ℚ
  p2 : ℚ × ℚ
  p3 : ℚ × ℚ
deriving DecidableEq

/-- np.mean of a list of reals. -/
noncomputable def npMean (l : List ℝ) : ℝ := l.sum / l.length

/-- Mean side length in pixels of one marker (aruco_utils.py lines 20-28):
the 4 side lengths are Euclidean distances between consecutive corners,
wrapping, and are averaged with np.mean. -/
noncomputable def meanSidePx (m : Marker) : ℝ :=
  npMean [pxDist m.p0 m.p1, pxDist m.p1 m.p2, pxDist m.p2 m.p3, pxDist m.p3 m.p0]

/-- detect_aruco_scale (aruco_utils.py lines 11-30), with the detection
result (the list of markers found by cv2) as input.  Returns none when no
markers were detected, otherwise the mean over markers of
(mean side length in px) / marker_size_mm. -/
noncomputable def detect_aruco_scale (markers : List Marker) (marker_size_mm : ℝ) : Option ℝ :=
  if markers.isEmpty then none
  else some (npMean (markers.map (fun m => meanSidePx m / marker_size_mm)))

/-- Centroid of a marker: c[0].mean(axis=0). -/
def centroid (m : Marker) : ℚ × ℚ :=
  ((m.p0.1 + m.p1.1 + m.p2.1 + m.p3.1) / 4, (m.p0.2 + m.p1.2 + m.p2.2 + m.p3.2) / 4)

/-- Comparison of centers by y coordinate, used for the argsort by y. -/
def byY (p q : ℚ × ℚ) : Prop := p.2 ≤ q.2

instance : DecidableRel byY := fun p q => inferInstanceAs (Decidable (p.2 ≤ q.2))

instance : IsTotal (ℚ × ℚ) byY := ⟨fun p q => le_total p.2 q.2⟩

instance : IsTrans (ℚ × ℚ) byY := ⟨fun _ _ _ h1 h2 => le_trans h1 h2⟩

/-- _order_centers_tl_tr_br_bl (aruco_utils.py lines 32-41): compute the
markers' centroids, sort them by y (argsort; any comparison sort agrees on
distinct keys), split into top two and bottom two, order each pair by
ascending x, and return [tl, tr, br, bl]. -/
def _order_centers_tl_tr_br_bl (corners : List Marker) : List (ℚ × ℚ) :=
  let centers := corners.map centroid
  match centers.insertionSort byY with
  | [a, b, c, d] =>
    let top := if a.1 ≤ b.1 then (a, b) else (b, a)
    let bot := if c.1 ≤ d.1 then (c, d) else (d, c)
    [top.1, top.2, bot.2, bot.1]
  | other => other

/-- Homogeneous coordinates of a pixel point. -/
def homogP (p : ℚ × ℚ) : Fin 3 → ℝ := ![(p.1 : ℝ), (p.2 : ℝ), 1]

/-- The 3x3 matrix with columns u, v, w. -/
def colMat (u v w : Fin 3 → ℝ) : Matrix (Fin 3) (Fin 3) ℝ :=
  !![u 0, v 0, w 0; u 1, v 1, w 1; u 2, v 2, w 2]

/-- Determinant of the 3x3 matrix with columns u, v, w. -/
def det3 (u v w : Fin 3 → ℝ) : ℝ :=
  u 0 * (v 1 * w 2 - v 2 * w 1) - v 0 * (u 1 * w 2 - u 2 * w 1)
    + w 0 * (u 1 * v 2 - u 2 * v 1)

/-- First barycentric-projective coefficient: the Cramer solution of
lam0 h(q0) + lam1 h(q1) + lam2 h(q2) = h(q3). -/
noncomputable def lam0 (q0 q1 q2 q3 : ℚ × ℚ) : ℝ :=
  det3 (homogP q3) (homogP q1) (homogP q2) / det3 (homogP q0) (homogP q1) (homogP q2)

/-- Second projective coefficient. -/
noncomputable def lam1 (q0 q1 q2 q3 : ℚ × ℚ) : ℝ :=
  det3 (homogP q0) (homogP q3) (homogP q2) / det3 (homogP q0) (homogP q1) (homogP q2)

/-- Third projective coefficient. -/
noncomputable def lam2 (q0 q1 q2 q3 : ℚ × ℚ) : ℝ :=
  det3 (homogP q0) (homogP q1) (homogP q3) / det3 (homogP q0) (homogP q1) (homogP q2)

/-- The canonical matrix sending the projective basis e0, e1, e2, (1,1,1)
to the quad q0, q1, q2, q3 (columns lam_i * h(q_i)). -/
noncomputable def quadMat (q0 q1 q2 q3 : ℚ × ℚ) : Matrix (Fin 3) (Fin 3) ℝ :=
  colMat (lam0 q0 q1 q2 q3 • homogP q0) (lam1 q0 q1 q2 q3 • homogP q1)
    (lam2 q0 q1 q2 q3 • homogP q2)

/-- cv2.getPerspectiveTransform modelled as the canonical quad-to-quad
homography (external collaborator; cv2 normalises the bottom-right entry
to 1, which changes the matrix only by a nonzero projective scale and so
does not change the induced plane map). -/
noncomputable def getPerspectiveTransform (s0 s1 s2 s3 t0 t1 t2 t3 : ℚ × ℚ) :
    Matrix (Fin 3) (Fin 3) ℝ :=
  quadMat t0 t1 t2 t3 * (quadMat s0 s1 s2 s3).adjugate

/-- Action of a homography on a pixel point (projective application). -/
noncomputable def pmap (H : Matrix (Fin 3) (Fin 3) ℝ) (p : ℚ × ℚ) : ℝ × ℝ :=
  let v := H.mulVec (homogP p)
  (v 0 / v 2, v 1 / v 2)

/-- The pure geometric core of rectify_topdown_with_aruco (aruco_utils.py
lines 52-61): take the first 4 markers, order their centroids, choose the
output size from the max opposite-side lengths (rounded up), and compute
the homography from the ordered centroids to the destination rectangle.
The fallback branch is unreachable for inputs with at least 4 markers. -/
noncomputable def rectifyCore (corners : List Marker) :
    Option (ℤ × ℤ × Matrix (Fin 3) (Fin 3) ℝ) :=
  match _order_centers_tl_tr_br_bl (corners.take 4) with
  | [tl, tr, br, bl] =>
    let w : ℤ := ⌈max (pxDist tl tr) (pxDist bl br)⌉
    let h : ℤ := ⌈max (pxDist tl bl) (pxDist tr br)⌉
    some (w, h,
      getPerspectiveTransform tl tr br bl
        (0, 0) ((w : ℚ) - 1, 0) ((w : ℚ) - 1, (h : ℚ) - 1) (0, (h : ℚ) - 1))
  | _ => none

/-- rectify_topdown_with_aruco (aruco_utils.py lines 43-67).  detect and
warp are the external cv2 collaborators (marker detection on an image and
warpPerspective).  Returns none when fewer than 4 markers are detected;
otherwise the warped image, the homography, and the re-detected scale on
the warped image (itself an Option: re-detection can find no markers). -/
noncomputable def rectify_topdown_with_aruco {Img : Type}
    (detect : Img → List Marker)
    (warp : Img → Matrix (Fin 3) (Fin 3) ℝ → ℤ × ℤ → Img)
    (image : Img) (marker_size_mm : ℝ) :
    Option (Img × Matrix (Fin 3) (Fin 3) ℝ × Option ℝ) :=
  let corners := detect image
  if corners.length < 4 then none
  else
    match rectifyCore corners with
    | some (w, h, H) =>
      let warped := warp image H (w, h)
      some (warped, H, detect_aruco_scale (detect warped) marker_size_mm)
    | none => none

/-- A stored annotation (app.py shape dicts): a box or a measurement line.
Lines carry mm_value (base_mm), mm_corrected and depth_mm, each possibly
absent. -/
inductive Shape where
  | box (label : String) (x y w h : ℚ)
  | line (label : String) (x1 y1 x2 y2 : ℚ)
      (mm_value mm_corrected depth_mm : Option ℝ)

/-- The measurement session state held by the Canvas (app.py lines 27-41):
the working image, current scale, stored shapes, the undo stack (modelled
by the number of recorded creation groups; the graphics items themselves
live in the external GUI scene), the last drawn line length, the cache of
at most 2 recent reference lines (y_mid, base_mm), the depth-correction
parameters and the bookkeeping depth. -/
structure Session (Img : Type) where
  img : Option Img
  px_per_mm : Option ℝ
  shapes : List Shape
  gstack : Nat
  last_line_px : Option ℝ
  recent_lines : List (ℚ × ℝ)
  scale_alpha : ℝ
  scale_beta : ℝ
  depth_mm_current : Option ℝ

/-- load (app.py lines 44-56): full reset with a fresh image. -/
def load {Img : Type} (image : Img) : Session Img :=
  { img := some image, px_per_mm := none, shapes := [], gstack := 0,
    last_line_px := none, recent_lines := [], scale_alpha := 1,
    scale_beta := 0, depth_mm_current := none }

/-- _correct_mm (app.py lines 94-96): mm * (alpha + beta * y). -/
noncomputable def _correct_mm {Img : Type} (s : Session Img) (mm : ℝ) (y : ℚ) : ℝ :=
  mm * (s.scale_alpha + s.scale_beta * (y : ℝ))

/-- Pixel length of a line segment (QLineF.length / np.hypot). -/
noncomputable def segLen (x1 y1 x2 y2 : ℚ) : ℝ := pxDist (x1, y1) (x2, y2)

/-- Releasing the mouse on a line drawing (app.py lines 128-161): retained
only when longer than 5 px; records last_line_px, computes base_mm from
the current scale (absent when uncalibrated or zero), applies the depth
correction at the vertical midpoint, appends (y_mid, base_mm) to the
reference-line cache truncated to the last 2, and stores the shape. -/
noncomputable def addLine {Img : Type} (s : Session Img) (label : String)
    (x1 y1 x2 y2 : ℚ) : Session Img :=
  let len := segLen x1 y1 x2 y2
  if 5 < len then
    let ymid : ℚ := (y1 + y2) / 2
    let base_mm : Option ℝ :=
      match s.px_per_mm with
      | some px => if px = 0 then none else some (len / px)
      | none => none
    let mm_corr : Option ℝ := base_mm.map (fun b => _correct_mm s b ymid)
    let recent : List (ℚ × ℝ) :=
      match base_mm with
      | some b =>
        let r := s.recent_lines ++ [(ymid, b)]
        if 2 < r.length then r.drop (r.length - 2) else r
      | none => s.recent_lines
    { s with
      last_line_px := some len,
      recent_lines := recent,
      shapes := s.shapes ++ [Shape.line label x1 y1 x2 y2 base_mm mm_corr s.depth_mm_current],
      gstack := s.gstack + 1 }
  else s

/-- Releasing the mouse on a box drawing (app.py lines 120-127): retained
only when both width and height exceed 5 px. -/
def addBox {Img : Type} (s : Session Img) (label : String) (x y w h : ℚ) : Session Img :=
  if 5 < w ∧ 5 < h then
    { s with shapes := s.shapes ++ [Shape.box label x y w h], gstack := s.gstack + 1 }
  else s

/-- undo (app.py lines 167-170): when both the graphics stack and the
shape list are nonempty, pop the most recent creation group and the most
recent shape.  The reference-line cache is not touched. -/
def undo {Img : Type} (s : Session Img) : Session Img :=
  if s.gstack = 0 ∨ s.shapes.isEmpty then s
  else { s with gstack := s.gstack - 1, shapes := s.shapes.dropLast }

/-- detect_scale (app.py lines 172-177): requires a loaded image; runs the
scale estimator on the detection result and stores it when it is a
nonzero value (Python truthiness of the float).  Stored shapes are not
touched. -/
noncomputable def detect_scale {Img : Type} (s : Session Img)
    (detect : Img → List Marker) (marker_mm : ℝ) : Option ℝ × Session Img :=
  match s.img with
  | none => (none, s)
  | some im =>
    match detect_aruco_scale (detect im) marker_mm with
    | none => (none, s)
    | some v => if v = 0 then (none, s) else (some v, { s with px_per_mm := some v })

/-- rectify_topdown (app.py lines 179-185): on success replaces the
working image with the warped one and overwrites px_per_mm with the
re-detected scale (which may be absent).  Stored shapes are not touched. -/
noncomputable def rectify_topdown {Img : Type} (s : Session Img)
    (detect : Img → List Marker)
    (warp : Img → Matrix (Fin 3) (Fin 3) ℝ → ℤ × ℤ → Img)
    (marker_mm : ℝ) : Option ℝ × Session Img :=
  match s.img with
  | none => (none, s)
  | some im =>
    match rectify_topdown_with_aruco detect warp im marker_mm with
    | none => (none, s)
    | some (warped, _, pxmm) => (pxmm, { s with img := some warped, px_per_mm := pxmm })

/-- calibrate_from_last_line (app.py lines 187-202): overwrites the scale
with last_line_px / known_mm (failing on an absent or zero last line or a
non-positive known_mm) and refreshes mm_value and mm_corrected of every
stored line from its stored pixel endpoints under the new scale and the
existing (alpha, beta). -/
noncomputable def calibrate_from_last_line {Img : Type} (s : Session Img)
    (known_mm : ℝ) : Option ℝ × Session Img :=
  match s.last_line_px with
  | none => (none, s)
  | some p =>
    if p = 0 ∨ known_mm ≤ 0 then (none, s)
    else
      let px := p / known_mm
      let refresh : Shape → Shape := fun sh =>
        match sh with
        | Shape.line lbl x1 y1 x2 y2 _ _ d =>
          let base := segLen x1 y1 x2 y2 / px
          Shape.line lbl x1 y1 x2 y2 (some base)
            (some (_correct_mm s base ((y1 + y2) / 2))) d
        | b => b
      (some px, { s with px_per_mm := some px, shapes := s.shapes.map refresh })

/-- np.linalg.lstsq for a 2x2 system (rcond=None), returning the solution
component: the unique solution when the system is non-singular, and the
minimum-norm least-squares solution A^T b / trace(A^T A) when the matrix
has rank at most 1 (the 2x2 pseudoinverse formula for that case; for the
zero matrix Lean division by zero yields the correct pinv(0) b = 0). -/
noncomputable def lstsq2x2 (a11 a12 a21 a22 b1 b2 : ℝ) : ℝ × ℝ :=
  let det := a11 * a22 - a12 * a21
  if det = 0 then
    let ss := a11 ^ 2 + a12 ^ 2 + a21 ^ 2 + a22 ^ 2
    ((a11 * b1 + a21 * b2) / ss, (a12 * b1 + a22 * b2) / ss)
  else
    ((b1 * a22 - a12 * b2) / det, (a11 * b2 - b1 * a21) / det)

/-- calibrate_depth_two_lines (app.py lines 204-229): requires at least 2
cached reference lines and a truthy (present, nonzero) scale; solves
base_mm_i * (alpha + beta * y_i) = true_width_mm for the last two cached
lines by least squares, stores (alpha, beta) and depth_mm, and recomputes
mm_corrected (and stamps depth_mm) for every stored line that has a
mm_value.  The fallback match arm is unreachable under the length guard. -/
noncomputable def calibrate_depth_two_lines {Img : Type} (s : Session Img)
    (true_width_mm depth_mm : ℝ) : Option (ℝ × ℝ) × Session Img :=
  if s.recent_lines.length < 2 ∨ s.px_per_mm = none ∨ s.px_per_mm = some 0 then
    (none, s)
  else
    match s.recent_lines.drop (s.recent_lines.length - 2) with
    | [(y1, m1), (y2, m2)] =>
      let ab := lstsq2x2 m1 (m1 * (y1 : ℝ)) m2 (m2 * (y2 : ℝ)) true_width_mm true_width_mm
      let refresh : Shape → Shape := fun sh =>
        match sh with
        | Shape.line lbl x1 y1 x2 y2 (some mv) _ _ =>
          Shape.line lbl x1 y1 x2 y2 (some mv)
            (some (mv * (ab.1 + ab.2 * (((y1 + y2) / 2 : ℚ) : ℝ)))) (some depth_mm)
        | other => other
      (some ab,
        { s with scale_alpha := ab.1, scale_beta := ab.2,
                 depth_mm_current := some depth_mm, shapes := s.shapes.map refresh })
    | _ => (none, s)

/-- Spec-side consistency of a stored shape with a calibration
(px_per_mm, alpha, beta): a line's mm fields equal the values recomputed
from its stored pixel geometry under that calibration. -/
def lineConsistent (px alpha beta : ℝ) : Shape → Prop
  | Shape.line _ x1 y1 x2 y2 mv mc _ =>
    mv = some (segLen x1 y1 x2 y2 / px) ∧
    mc = some (segLen x1 y1 x2 y2 / px * (alpha + beta * (((y1 + y2) / 2 : ℚ) : ℝ)))
  | _ => True

/-- Spec-side consistency of a stored shape with a depth correction
(alpha, beta, depth): a line with a base mm value has mm_corrected
recomputed at its own midpoint and carries the new depth stamp. -/
def corrConsistent (alpha beta d : ℝ) : Shape → Prop
  | Shape.line _ _ y1 _ y2 (some mv) mc dm =>
    mc = some (mv * (alpha + beta * (((y1 + y2) / 2 : ℚ) : ℝ))) ∧ dm = some d
  | _ => True

/-- A square marker of pixel side 120 with a corner at the origin. -/
def sq120 : Marker := ⟨(0, 0), (120, 0), (120, 120), (0, 120)⟩

/-- A square marker of pixel side 2 centred at (cx, cy). -/
def mkSq (cx cy : ℚ) : Marker :=
  ⟨(cx - 1, cy - 1), (cx + 1, cy - 1), (cx + 1, cy + 1), (cx - 1, cy + 1)⟩

/-- Four markers with centroids at the corners of a 10 by 10 square. -/
def fourMarkers : List Marker := [mkSq 0 0, mkSq 10 0, mkSq 10 10, mkSq 0 10]

/-- Four markers with pairwise distinct centroid coordinates. -/
def c9Markers : List Marker := [mkSq 0 0, mkSq 10 1, mkSq 10 11, mkSq 0 10]

/-- The same four markers in a different detection order. -/
def c9MarkersPerm : List Marker := [mkSq 10 1, mkSq 0 0, mkSq 10 11, mkSq 0 10]

/-- A detector for a one-image world that always finds the single large
square marker. -/
def uDetect : Unit → List Marker := fun _ => [sq120]

/-- A detector for a two-image world (false = original, true = warped):
four markers on the original image, none on the warped one. -/
def tDetect : Bool → List Marker := fun b => if b then [] else fourMarkers

/-- The external warp for the two-image world: always produces the warped
image. -/
def tWarp : Bool → Matrix (Fin 3) (Fin 3) ℝ → ℤ × ℤ → Bool := fun _ _ _ => true

/-- Session after loading and detecting scale with 60mm markers. -/
noncomputable def sB : Session Unit := (detect_scale (load ()) uDetect 60).2

/-- Session after additionally drawing the measurement line (0,0)-(10,0). -/
noncomputable def sC : Session Unit := addLine sB ("m") 0 0 10 0

/-- Session after a second detect_scale with marker size 30mm. -/
noncomputable def sD : Session Unit := (detect_scale sC uDetect 30).2

/-- A scaled session in the two-image world. -/
noncomputable def sT : Session Bool := (detect_scale (load false) tDetect 1).2

/-- The homography computed by the rectifier on fourMarkers. -/
noncomputable def c8H : Matrix (Fin 3) (Fin 3) ℝ :=
  getPerspectiveTransform (0, 0) (10, 0) (10, 10) (0, 10)
    (0, 0) (((10 : ℤ) : ℚ) - 1, 0) (((10 : ℤ) : ℚ) - 1, ((10 : ℤ) : ℚ) - 1)
    (0, ((10 : ℤ) : ℚ) - 1)

/-- A session whose two cached reference lines share y = 1. -/
noncomputable def sC2 : Session Unit :=
  ⟨some (), some 1, [], 0, none, [(1, 2), (1, 3)], 1, 0, none⟩

/-- A session with two well-separated cached reference lines. -/
noncomputable def sC2w : Session Unit :=
  ⟨some (), some 1, [], 0, none, [(0, 2), (1, 1)], 1, 0, none⟩

/-! Evaluation helpers. -/

theorem pxDist_eq (p q : ℚ × ℚ) (r : ℝ) (h0 : 0 ≤ r)
    (h : ((p.1 - q.1 : ℚ) : ℝ) ^ 2 + ((p.2 - q.2 : ℚ) : ℝ) ^ 2 = r ^ 2) :
    pxDist p q = r := by
  rw [pxDist, h, Real.sqrt_sq h0]

theorem npMean_singleton (a : ℝ) : npMean [a] = a := by
  simp [npMean]

theorem npMean_four (a b c d : ℝ) : npMean [a, b, c, d] = (a + b + c + d) / 4 := by
  simp [npMean]
  ring

theorem meanSide_sq120 : meanSidePx sq120 = 120 := by
  rw [meanSidePx, sq120]
  rw [pxDist_eq (0, 0) (120, 0) 120 (by norm_num) (by push_cast; norm_num)]
  rw [pxDist_eq (120, 0) (120, 120) 120 (by norm_num) (by push_cast; norm_num)]
  rw [pxDist_eq (120, 120) (0, 120) 120 (by norm_num) (by push_cast; norm_num)]
  rw [pxDist_eq (0, 120) (0, 0) 120 (by norm_num) (by push_cast; norm_num)]
  rw [npMean_four]
  norm_num

theorem detect_sq120 (L : ℝ) : detect_aruco_scale [sq120] L = some (120 / L) := by
  rw [detect_aruco_scale]
  simp [meanSide_sq120, npMean_singleton]

theorem segLen_0_10 : segLen 0 0 10 0 = 10 := by
  rw [segLen, pxDist_eq (0, 0) (10, 0) 10 (by norm_num) (by push_cast; norm_num)]

theorem sB_eval : sB = ⟨some (), some 2, [], 0, none, [], 1, 0, none⟩ := by
  rw [sB, detect_scale]
  simp [load, uDetect, detect_sq120]
  norm_num

theorem sC_eval :
    sC = ⟨some (), some 2, [Shape.line ("m") 0 0 10 0 (some 5) (some 5) none],
      1, some 10, [(0, 5)], 1, 0, none⟩ := by
  rw [sC, sB_eval, addLine]
  rw [segLen_0_10]
  simp [_correct_mm]
  norm_num

theorem sD_eval :
    sD = ⟨some (), some 4, [Shape.line ("m") 0 0 10 0 (some 5) (some 5) none],
      1, some 10, [(0, 5)], 1, 0, none⟩ := by
  rw [sD, detect_scale, sC_eval]
  simp [uDetect, detect_sq120]
  norm_num

/-! Claim C1: scale estimation formula and the 120px/60mm scenario. -/

/-- Claim C1: for every detection result with at least one marker and
every physical side length L > 0, detect_aruco_scale returns the
arithmetic mean over markers of (mean of the 4 side lengths) / L; in
particular one marker of pixel side 120 with L = 60 yields 2.0. -/
theorem c1_scale_estimator :
    (∀ (ms : List Marker) (L : ℝ), ms ≠ [] → 0 < L →
      detect_aruco_scale ms L =
        some ((ms.map (fun m =>
          (pxDist m.p0 m.p1 + pxDist m.p1 m.p2 + pxDist m.p2 m.p3 + pxDist m.p3 m.p0) / 4
            / L)).sum / (ms.length : ℝ)))
    ∧ detect_aruco_scale [sq120] 60 = some 2 := by
  constructor
  · intro ms L hne _
    have hfun : (fun m => meanSidePx m / L) = fun m : Marker =>
        (pxDist m.p0 m.p1 + pxDist m.p1 m.p2 + pxDist m.p2 m.p3 + pxDist m.p3 m.p0) / 4 / L := by
      funext m
      rw [meanSidePx, npMean_four]
    rw [detect_aruco_scale, if_neg (by simpa using hne), npMean, hfun, List.length_map]
  · rw [detect_sq120]
    norm_num

/-- Witness for C1 at the single 120px marker with L = 60. -/
theorem c1_witness :
    ([sq120] ≠ ([] : List Marker)) ∧ (0 : ℝ) < 60 ∧
    detect_aruco_scale [sq120] 60 =
      some ((([sq120] : List Marker).map (fun m =>
        (pxDist m.p0 m.p1 + pxDist m.p1 m.p2 + pxDist m.p2 m.p3 + pxDist m.p3 m.p0) / 4
          / 60)).sum / ((([sq120] : List Marker).length : ℕ) : ℝ)) :=
  ⟨by simp, by norm_num, c1_scale_estimator.1 [sq120] 60 (by simp) (by norm_num)⟩

/-! Claim C5: fallible operations signal failure by sentinel values. -/

/-- Claim C5: zero markers make the scale estimator return none; fewer
than 4 markers make the rectifier return none; fewer than 2 cached lines
or an uncalibrated scale make depth calibration return none; a
non-positive calibration length makes single-line calibration return
none.  (In this embedding every operation is a total function, so no
exception can be raised.) -/
theorem c5_sentinels :
    (∀ L : ℝ, detect_aruco_scale [] L = none)
    ∧ (∀ (Img : Type) (detect : Img → List Marker)
        (warp : Img → Matrix (Fin 3) (Fin 3) ℝ → ℤ × ℤ → Img) (image : Img) (L : ℝ),
        (detect image).length < 4 →
        rectify_topdown_with_aruco detect warp image L = none)
    ∧ (∀ (Img : Type) (s : Session Img) (w d : ℝ),
        s.recent_lines.length < 2 ∨ s.px_per_mm = none →
        (calibrate_depth_two_lines s w d).1 = none)
    ∧ (∀ (Img : Type) (s : Session Img) (known : ℝ), known ≤ 0 →
        (calibrate_from_last_line s known).1 = none) := by
  refine ⟨fun L => rfl, fun Img detect warp image L h => ?_, ?_, ?_⟩
  · rw [rectify_topdown_with_aruco]
    simp [h]
  · intro Img s w d h
    rw [calibrate_depth_two_lines, if_pos (by tauto)]
  · intro Img s known h
    rw [calibrate_from_last_line]
    cases hl : s.last_line_px with
    | none => rfl
    | some p => simp [h]

/-- Witness for C5: each sentinel clause exercised at a concrete input. -/
theorem c5_witness :
    detect_aruco_scale [] 1 = none
    ∧ rectify_topdown_with_aruco (fun _ : Unit => ([] : List Marker)) (fun i _ _ => i) () 1 = none
    ∧ (calibrate_depth_two_lines (load ()) 1 1).1 = none
    ∧ (calibrate_from_last_line (load ()) 0).1 = none :=
  ⟨c5_sentinels.1 1,
   c5_sentinels.2.1 Unit (fun _ => []) (fun i _ _ => i) () 1 (by simp),
   c5_sentinels.2.2.1 Unit (load ()) 1 1 (Or.inl (by simp [load])),
   c5_sentinels.2.2.2 Unit (load ()) 0 le_rfl⟩

/-! Claim C7: default depth correction is the identity. -/

/-- Claim C7: with the default parameters alpha = 1 and beta = 0 the depth
correction is the identity: corrected_mm(base_mm, y) = base_mm for every
base_mm and y. -/
theorem c7_identity {Img : Type} (s : Session Img)
    (ha : s.scale_alpha = 1) (hb : s.scale_beta = 0) (mm : ℝ) (y : ℚ) :
    _correct_mm s mm y = mm := by
  simp [_correct_mm, ha, hb]

/-- Witness for C7 on a freshly loaded session. -/
theorem c7_witness : _correct_mm (load ()) 3 7 = 3 :=
  c7_identity (load ()) rfl rfl 3 7

/-! Claim C4: single-line calibration round trip. -/

/-- Claim C4: for a session whose most recent line has pixel length p > 5
and any known_mm > 0, calibrate_from_last_line sets pixels_per_mm to
p / known_mm, and the calibration line itself, recomputed from its stored
pixel geometry under the new scale, gets mm_value exactly known_mm. -/
theorem c4_round_trip {Img : Type} (s : Session Img) (p known : ℝ) (lbl : String)
    (x1 y1 x2 y2 : ℚ) (mv mc dm : Option ℝ) (rest : List Shape)
    (hlast : s.last_line_px = some p) (hp : 5 < p) (hkn : 0 < known)
    (hshapes : s.shapes = rest ++ [Shape.line lbl x1 y1 x2 y2 mv mc dm])
    (hlen : segLen x1 y1 x2 y2 = p) :
    (calibrate_from_last_line s known).1 = some (p / known)
    ∧ (calibrate_from_last_line s known).2.px_per_mm = some (p / known)
    ∧ (calibrate_from_last_line s known).2.shapes.getLast? =
        some (Shape.line lbl x1 y1 x2 y2 (some known)
          (some (_correct_mm s known ((y1 + y2) / 2))) dm) := by
  have hp0 : p ≠ 0 := by linarith
  have hk0 : known ≠ 0 := by linarith
  have hbase : segLen x1 y1 x2 y2 / (p / known) = known := by
    rw [hlen]
    field_simp
  simp only [calibrate_from_last_line, hlast]
  rw [if_neg (by push_neg; exact ⟨hp0, by linarith⟩)]
  refine ⟨rfl, rfl, ?_⟩
  simp only [hshapes, List.map_append, List.map_cons, List.map_nil]
  rw [List.getLast?_concat]
  rw [hbase]

/-- Witness for C4: calibrating the session sC (one 10px line) against
known_mm = 4 yields scale 10/4 and re-measures the line as exactly 4mm. -/
theorem c4_witness :
    (calibrate_from_last_line sC 4).1 = some (10 / 4)
    ∧ (calibrate_from_last_line sC 4).2.px_per_mm = some (10 / 4)
    ∧ (calibrate_from_last_line sC 4).2.shapes.getLast? =
        some (Shape.line ("m") 0 0 10 0 (some 4)
          (some (_correct_mm sC 4 ((0 + 0) / 2))) none) :=
  c4_round_trip sC 10 4 ("m") 0 0 10 0 (some 5) (some 5) none []
    (by rw [sC_eval]) (by norm_num) (by norm_num)
    (by simp [sC_eval]) segLen_0_10

/-! Claim C6: undo pops the most recent shape but leaves the
reference-line cache untouched. -/

/-- Counterexample for C6: in session sC the only shape is a line whose
(y_mid, base_mm) = (0, 5) entry sits in the reference-line cache; undo
removes the shape but the cache still holds the entry, whereas a cache
recomputed from the remaining (zero) shapes would be empty. -/
theorem c6_counterexample :
    (undo sC).shapes = [] ∧ (undo sC).recent_lines = [(0, (5 : ℝ))]
    ∧ [((0 : ℚ), (5 : ℝ))] ≠ ([] : List (ℚ × ℝ)) := by
  rw [sC_eval]
  refine ⟨?_, ?_, by simp⟩ <;> rw [undo] <;> simp

/-- Claim C6 as amended: undo removes exactly the most recently created
shape (and only that one) and leaves every other session field, including
the two-entry reference-line cache, unchanged — so a cache entry
contributed by the removed shape stays behind as a stale entry. -/
theorem c6_undo {Img : Type} (s : Session Img)
    (h1 : s.gstack ≠ 0) (h2 : s.shapes ≠ []) :
    (undo s).shapes = s.shapes.dropLast
    ∧ (undo s).recent_lines = s.recent_lines
    ∧ (undo s).px_per_mm = s.px_per_mm
    ∧ (undo s).scale_alpha = s.scale_alpha
    ∧ (undo s).scale_beta = s.scale_beta
    ∧ (undo s).last_line_px = s.last_line_px := by
  rw [undo, if_neg (by simp [h1, h2])]
  exact ⟨rfl, rfl, rfl, rfl, rfl, rfl⟩

/-- Witness for C6 on session sC. -/
theorem c6_witness :
    (undo sC).shapes = sC.shapes.dropLast
    ∧ (undo sC).recent_lines = sC.recent_lines
    ∧ (undo sC).px_per_mm = sC.px_per_mm
    ∧ (undo sC).scale_alpha = sC.scale_alpha
    ∧ (undo sC).scale_beta = sC.scale_beta
    ∧ (undo sC).last_line_px = sC.last_line_px :=
  c6_undo sC (by rw [sC_eval]; simp) (by rw [sC_eval]; simp)

/-! Claim C2: exactness of the two-line depth fit. -/

/-- Counterexample for C2: the session sC2 caches the two reference lines
(y_1, base_1) = (1, 2) and (y_2, base_2) = (1, 3), which satisfy the
claimed non-singularity condition base_1 * y_2 different from
base_2 * y_1; yet the system base_i * (alpha + beta * y_i) = 1 has no
solution at all (the true determinant base_1 * base_2 * (y_2 - y_1) is
zero), so the fitted pair - here the minimum-norm least-squares output
(5/26, 5/26) - is not an exact solution. -/
theorem c2_counterexample :
    sC2.recent_lines = [(1, 2), (1, 3)]
    ∧ (2 : ℝ) * 1 ≠ (3 : ℝ) * 1
    ∧ (calibrate_depth_two_lines sC2 1 0).1 = some (5 / 26, 5 / 26)
    ∧ (¬ ∃ a b : ℝ, 2 * (a + b * 1) = 1 ∧ 3 * (a + b * 1) = 1)
    ∧ ¬ ((2 : ℝ) * (5 / 26 + 5 / 26 * 1) = 1 ∧ (3 : ℝ) * (5 / 26 + 5 / 26 * 1) = 1) := by
  refine ⟨rfl, by norm_num, ?_, ?_, by norm_num⟩
  · rw [calibrate_depth_two_lines]
    rw [if_neg (by simp [sC2])]
    simp only [sC2]
    norm_num [lstsq2x2]
  · rintro ⟨a, b, h1, h2⟩
    linarith

/-- Claim C2 as amended: the claimed hypothesis base_1 * y_2 different
from base_2 * y_1 is replaced by the actual non-singularity of the fitted
system, base_1, base_2 nonzero and y_1 different from y_2 (determinant
base_1 * base_2 * (y_2 - y_1) nonzero).  Under it the fit is the exact
unique solution of both equations, so two lines constructed from a known
(alpha, beta) give back exactly that pair. -/
theorem c2_depth_fit {Img : Type} (s : Session Img) (y1 y2 : ℚ) (m1 m2 w d v : ℝ)
    (hcache : s.recent_lines = [(y1, m1), (y2, m2)])
    (hpx : s.px_per_mm = some v) (hv : v ≠ 0)
    (hm1 : m1 ≠ 0) (hm2 : m2 ≠ 0) (hy : y1 ≠ y2) :
    ∃ a b : ℝ,
      (calibrate_depth_two_lines s w d).1 = some (a, b)
      ∧ (calibrate_depth_two_lines s w d).2.scale_alpha = a
      ∧ (calibrate_depth_two_lines s w d).2.scale_beta = b
      ∧ m1 * (a + b * (y1 : ℝ)) = w
      ∧ m2 * (a + b * (y2 : ℝ)) = w
      ∧ ∀ a2 b2 : ℝ, m1 * (a2 + b2 * (y1 : ℝ)) = w → m2 * (a2 + b2 * (y2 : ℝ)) = w →
          a2 = a ∧ b2 = b := by
  have hyR : (y1 : ℝ) ≠ (y2 : ℝ) := by exact_mod_cast hy
  have hdet : m1 * (m2 * (y2 : ℝ)) - m1 * (y1 : ℝ) * m2 ≠ 0 := by
    have : m1 * (m2 * (y2 : ℝ)) - m1 * (y1 : ℝ) * m2 = m1 * m2 * ((y2 : ℝ) - (y1 : ℝ)) := by
      ring
    rw [this]
    exact mul_ne_zero (mul_ne_zero hm1 hm2) (sub_ne_zero.mpr hyR.symm)
  simp only [calibrate_depth_two_lines, hcache, hpx]
  rw [if_neg (by simp [hv])]
  simp only [List.length_cons, List.length_nil]
  norm_num
  rw [lstsq2x2, if_neg hdet]
  refine ⟨(w * (m2 * (y2 : ℝ)) - m1 * (y1 : ℝ) * w) / (m1 * (m2 * (y2 : ℝ)) - m1 * (y1 : ℝ) * m2),
    (m1 * w - w * m2) / (m1 * (m2 * (y2 : ℝ)) - m1 * (y1 : ℝ) * m2), rfl, rfl, rfl, ?_, ?_, ?_⟩
  · field_simp
    ring
  · field_simp
    ring
  · intro a2 b2 h1 h2
    constructor
    · field_simp
      linear_combination (m2 * (y2 : ℝ)) * h1 - m1 * (y1 : ℝ) * h2
    · field_simp
      linear_combination m1 * h2 - m2 * h1

/-- Witness for C2 on the session sC2w, whose two cached lines
(0, 2) and (1, 1) both measure a true width of 2mm under
(alpha, beta) = (1, 1). -/
theorem c2_witness :
    ∃ a b : ℝ,
      (calibrate_depth_two_lines sC2w 2 7).1 = some (a, b)
      ∧ (calibrate_depth_two_lines sC2w 2 7).2.scale_alpha = a
      ∧ (calibrate_depth_two_lines sC2w 2 7).2.scale_beta = b
      ∧ 2 * (a + b * ((0 : ℚ) : ℝ)) = 2
      ∧ 1 * (a + b * ((1 : ℚ) : ℝ)) = 2
      ∧ ∀ a2 b2 : ℝ, 2 * (a2 + b2 * ((0 : ℚ) : ℝ)) = 2 → 1 * (a2 + b2 * ((1 : ℚ) : ℝ)) = 2 →
          a2 = a ∧ b2 = b :=
  c2_depth_fit sC2w 0 1 2 1 2 7 1 rfl rfl (by norm_num) (by norm_num) (by norm_num)
    (by norm_num)

/-! Claim C3: which operations recompute stored mm fields. -/

/-- Counterexample for C3: session sC stores a 10px line with
mm_value = 5 under scale 2; a second detect_scale changes the scale to 4
but leaves the stored shape untouched, so its mm_value (5) no longer
equals the value recomputed from its pixel geometry under the new
calibration (10 / 4 = 2.5). -/
theorem c3_counterexample :
    sD.px_per_mm = some 4
    ∧ sD.shapes = [Shape.line ("m") 0 0 10 0 (some 5) (some 5) none]
    ∧ segLen 0 0 10 0 / 4 ≠ (5 : ℝ)
    ∧ ¬ lineConsistent 4 1 0 (Shape.line ("m") 0 0 10 0 (some 5) (some 5) none) := by
  rw [sD_eval]
  refine ⟨rfl, rfl, ?_, ?_⟩
  · rw [segLen_0_10]
    norm_num
  · rw [lineConsistent]
    rintro ⟨h, -⟩
    rw [segLen_0_10] at h
    rw [Option.some.injEq] at h
    norm_num at h

/-- Claim C3 as amended: calibrate_from_last_line recomputes mm_value and
mm_corrected of every stored line from its pixel geometry under the new
scale, and calibrate_depth_two_lines recomputes mm_corrected (and stamps
depth_mm) of every stored line that has a base value; but detect_scale
and rectify_topdown leave the stored shapes entirely unchanged, so their
mm fields can go stale when those two operations change the scale. -/
theorem c3_recompute :
    (∀ (Img : Type) (s : Session Img) (known px : ℝ) (s2 : Session Img),
      calibrate_from_last_line s known = (some px, s2) →
      ∀ sh ∈ s2.shapes, lineConsistent px s.scale_alpha s.scale_beta sh)
    ∧ (∀ (Img : Type) (s : Session Img) (w d : ℝ) (ab : ℝ × ℝ) (s2 : Session Img),
      calibrate_depth_two_lines s w d = (some ab, s2) →
      ∀ sh ∈ s2.shapes, corrConsistent ab.1 ab.2 d sh)
    ∧ (∀ (Img : Type) (s : Session Img) (detect : Img → List Marker) (mm : ℝ),
      ((detect_scale s detect mm).2).shapes = s.shapes)
    ∧ (∀ (Img : Type) (s : Session Img) (detect : Img → List Marker)
        (warp : Img → Matrix (Fin 3) (Fin 3) ℝ → ℤ × ℤ → Img) (mm : ℝ),
      ((rectify_topdown s detect warp mm).2).shapes = s.shapes) := by
  refine ⟨?_, ?_, ?_, ?_⟩
  · intro Img s known px s2 h sh hsh
    cases hl : s.last_line_px with
    | none =>
      simp only [calibrate_from_last_line, hl] at h
      simp at h
    | some p =>
      simp only [calibrate_from_last_line, hl] at h
      by_cases hg : p = 0 ∨ known ≤ 0
      · rw [if_pos hg] at h
        simp at h
      · rw [if_neg hg] at h
        rw [Prod.ext_iff] at h
        obtain ⟨hpx, hs2⟩ := h
        simp only at hpx hs2
        rw [Option.some.injEq] at hpx
        rw [← hs2] at hsh
        simp only at hsh
        obtain ⟨a, _, rfl⟩ := List.mem_map.mp hsh
        cases a with
        | box lbl x y wdt hgt => exact trivial
        | line lbl x1 y1 x2 y2 mv mc dm =>
          rw [← hpx]
          exact ⟨rfl, rfl⟩
  · intro Img s w d ab s2 h sh hsh
    rw [calibrate_depth_two_lines] at h
    by_cases hg : s.recent_lines.length < 2 ∨ s.px_per_mm = none ∨ s.px_per_mm = some 0
    · rw [if_pos hg] at h
      simp at h
    · rw [if_neg hg] at h
      cases hdrop : s.recent_lines.drop (s.recent_lines.length - 2) with
      | nil =>
        rw [hdrop] at h
        simp at h
      | cons p1 t1 =>
        obtain ⟨yy1, mm1⟩ := p1
        cases t1 with
        | nil =>
          rw [hdrop] at h
          simp at h
        | cons p2 t2 =>
          obtain ⟨yy2, mm2⟩ := p2
          cases t2 with
          | cons p3 t3 =>
            rw [hdrop] at h
            simp at h
          | nil =>
            rw [hdrop] at h
            rw [Prod.ext_iff] at h
            obtain ⟨hab, hs2⟩ := h
            simp only at hab hs2
            rw [Option.some.injEq] at hab
            rw [← hs2] at hsh
            simp only at hsh
            obtain ⟨a, _, rfl⟩ := List.mem_map.mp hsh
            cases a with
            | box lbl x y wdt hgt => exact trivial
            | line lbl x1 y1 x2 y2 mv mc dm =>
              cases mv with
              | none => exact trivial
              | some v =>
                rw [← hab]
                exact ⟨rfl, rfl⟩
  · intro Img s detect mm
    cases him : s.img with
    | none => simp only [detect_scale, him]
    | some im =>
      simp only [detect_scale, him]
      cases detect_aruco_scale (detect im) mm with
      | none => rfl
      | some v =>
        by_cases hv : v = 0
        · simp [hv]
        · simp [hv]
  · intro Img s detect warp mm
    cases him : s.img with
    | none => simp only [rectify_topdown, him]
    | some im =>
      simp only [rectify_topdown, him]
      cases rectify_topdown_with_aruco detect warp im mm with
      | none => rfl
      | some t =>
        obtain ⟨warped, H, pxmm⟩ := t
        rfl

/-- Witness for C3: after calibrating sC from its last line against 4mm,
the stored line satisfies the recomputation invariant for the new scale
10/4. -/
theorem c3_witness :
    lineConsistent (10 / 4) sC.scale_alpha sC.scale_beta
      (Shape.line ("m") 0 0 10 0 (some 4) (some 4) none) :=
  c3_recompute.1 Unit sC 4 (10 / 4)
    ⟨some (), some (10 / 4), [Shape.line ("m") 0 0 10 0 (some 4) (some 4) none],
      1, some 10, [(0, 5)], 1, 0, none⟩
    (by
      rw [sC_eval]
      simp only [calibrate_from_last_line]
      rw [if_neg (by norm_num)]
      simp [segLen_0_10, _correct_mm])

    (Shape.line ("m") 0 0 10 0 (some 4) (some 4) none) (by simp)

/-! Claim C9: geometric marker ordering is detection-order invariant. -/

/-- Two sorted lists of points that are permutations of each other and
have pairwise distinct y coordinates are equal. -/
theorem sorted_perm_eq : ∀ (l1 l2 : List (ℚ × ℚ)), l1.Perm l2 →
    l1.Sorted byY → l2.Sorted byY → (l1.map Prod.snd).Nodup → l1 = l2 := by
  intro l1
  induction l1 with
  | nil =>
    intro l2 hp _ _ _
    exact List.Perm.nil_eq hp
  | cons a t ih =>
    intro l2 hp hs1 hs2 hnd
    cases l2 with
    | nil => simpa using hp.eq_nil
    | cons b t2 =>
      have hab : a = b := by
        have ha2 : a ∈ b :: t2 := hp.mem_iff.mp (List.mem_cons_self a t)
        have hb1 : b ∈ a :: t := hp.mem_iff.mpr (List.mem_cons_self b t2)
        rcases List.mem_cons.mp ha2 with h | ha3
        · exact h
        rcases List.mem_cons.mp hb1 with h | hb3
        · exact h.symm
        have r1 : byY a b := List.rel_of_sorted_cons hs1 b hb3
        have r2 : byY b a := List.rel_of_sorted_cons hs2 a ha3
        have hyy : a.2 = b.2 := le_antisymm r1 r2
        exfalso
        have hmem : a.2 ∈ t.map Prod.snd := List.mem_map.mpr ⟨b, hb3, hyy.symm⟩
        have hnd' : (a.2 :: t.map Prod.snd).Nodup := by
          rw [List.map_cons] at hnd
          exact hnd
        exact (List.nodup_cons.mp hnd').1 hmem
      subst hab
      have hpt : t.Perm t2 := hp.cons_inv
      have htl : t = t2 := by
        refine ih t2 hpt hs1.of_cons hs2.of_cons ?_
        have hnd' : (a.2 :: t.map Prod.snd).Nodup := by
          rw [List.map_cons] at hnd
          exact hnd
        exact (List.nodup_cons.mp hnd').2
      rw [htl]

/-- Claim C9: for exactly 4 markers whose centroids have pairwise
distinct y coordinates, the TL/TR/BR/BL assignment is invariant under
permuting the markers' detection order (this holds without needing the
distinct-x-within-pair hypothesis of the claim, which is therefore also
confirmed). -/
theorem c9_order_invariant (ms1 ms2 : List Marker)
    (hperm : ms1.Perm ms2) (_hlen : ms1.length = 4)
    (hy : ((ms1.map centroid).map Prod.snd).Nodup) :
    _order_centers_tl_tr_br_bl ms2 = _order_centers_tl_tr_br_bl ms1 := by
  have hcperm : (ms2.map centroid).Perm (ms1.map centroid) := (hperm.map centroid).symm
  have hsorteq : (ms2.map centroid).insertionSort byY
      = (ms1.map centroid).insertionSort byY := by
    apply sorted_perm_eq
    · exact ((List.perm_insertionSort byY _).trans hcperm).trans
        (List.perm_insertionSort byY _).symm
    · exact List.sorted_insertionSort byY _
    · exact List.sorted_insertionSort byY _
    · have hp2 : (((ms2.map centroid).insertionSort byY).map Prod.snd).Perm
          ((ms1.map centroid).map Prod.snd) :=
        ((List.perm_insertionSort byY _).trans hcperm).map Prod.snd
      exact hp2.nodup_iff.mpr hy
  simp only [_order_centers_tl_tr_br_bl]
  rw [hsorteq]

/-- Witness for C9: swapping the first two of four concrete markers with
distinct centroid y coordinates yields the same TL/TR/BR/BL list. -/
theorem c9_witness :
    _order_centers_tl_tr_br_bl c9MarkersPerm = _order_centers_tl_tr_br_bl c9Markers :=
  c9_order_invariant c9Markers c9MarkersPerm
    (List.Perm.swap (mkSq 10 1) (mkSq 0 0) [mkSq 10 11, mkSq 0 10])
    (by simp [c9Markers])
    (by
      simp [c9Markers, mkSq, centroid, List.nodup_cons]
      norm_num)

/-! Homography lemmas for claim C8. -/

theorem colMat_mulVec (u v w c : Fin 3 → ℝ) :
    (colMat u v w).mulVec c = c 0 • u + c 1 • v + c 2 • w := by
  funext i
  fin_cases i <;>
    simp [colMat, Matrix.mulVec, Matrix.dotProduct, Fin.sum_univ_three,
      Matrix.vecHead, Matrix.vecTail] <;> ring

theorem det3_colMat (u v w : Fin 3 → ℝ) : (colMat u v w).det = det3 u v w := by
  simp [colMat, Matrix.det_fin_three, det3]
  ring

theorem det3_smul3 (a b c : ℝ) (u v w : Fin 3 → ℝ) :
    det3 (a • u) (b • v) (c • w) = a * b * c * det3 u v w := by
  simp [det3, Pi.smul_apply, smul_eq_mul]
  ring

theorem cramer_vec (u v w z : Fin 3 → ℝ) :
    det3 z v w • u + det3 u z w • v + det3 u v z • w = det3 u v w • z := by
  funext i
  fin_cases i <;>
    simp [det3, Pi.add_apply, Pi.smul_apply, smul_eq_mul] <;> ring

theorem quad_combo (q0 q1 q2 q3 : ℚ × ℚ)
    (hd : det3 (homogP q0) (homogP q1) (homogP q2) ≠ 0) :
    lam0 q0 q1 q2 q3 • homogP q0 + lam1 q0 q1 q2 q3 • homogP q1
      + lam2 q0 q1 q2 q3 • homogP q2 = homogP q3 := by
  have key := cramer_vec (homogP q0) (homogP q1) (homogP q2) (homogP q3)
  funext i
  have ki := congrFun key i
  simp only [Pi.add_apply, Pi.smul_apply, smul_eq_mul] at ki
  simp only [lam0, lam1, lam2, Pi.add_apply, Pi.smul_apply, smul_eq_mul]
  field_simp
  linear_combination ki

theorem quadMat_mulVec_e0 (q0 q1 q2 q3 : ℚ × ℚ) :
    (quadMat q0 q1 q2 q3).mulVec ![1, 0, 0] = lam0 q0 q1 q2 q3 • homogP q0 := by
  rw [quadMat, colMat_mulVec]
  simp

theorem quadMat_mulVec_e1 (q0 q1 q2 q3 : ℚ × ℚ) :
    (quadMat q0 q1 q2 q3).mulVec ![0, 1, 0] = lam1 q0 q1 q2 q3 • homogP q1 := by
  rw [quadMat, colMat_mulVec]
  simp

theorem quadMat_mulVec_e2 (q0 q1 q2 q3 : ℚ × ℚ) :
    (quadMat q0 q1 q2 q3).mulVec ![0, 0, 1] = lam2 q0 q1 q2 q3 • homogP q2 := by
  rw [quadMat, colMat_mulVec]
  simp

theorem quadMat_mulVec_ones (q0 q1 q2 q3 : ℚ × ℚ)
    (hd : det3 (homogP q0) (homogP q1) (homogP q2) ≠ 0) :
    (quadMat q0 q1 q2 q3).mulVec ![1, 1, 1] = homogP q3 := by
  rw [quadMat, colMat_mulVec]
  simpa using quad_combo q0 q1 q2 q3 hd

theorem quadMat_det (q0 q1 q2 q3 : ℚ × ℚ) :
    (quadMat q0 q1 q2 q3).det =
      lam0 q0 q1 q2 q3 * lam1 q0 q1 q2 q3 * lam2 q0 q1 q2 q3
        * det3 (homogP q0) (homogP q1) (homogP q2) := by
  rw [quadMat, det3_colMat, det3_smul3]

theorem pmap_of_smul (H : Matrix (Fin 3) (Fin 3) ℝ) (p t : ℚ × ℚ) (c : ℝ)
    (hc : c ≠ 0) (h : H.mulVec (homogP p) = c • homogP t) :
    pmap H p = ((t.1 : ℝ), (t.2 : ℝ)) := by
  have h0 : (H.mulVec (homogP p)) 0 = c * (t.1 : ℝ) := by rw [h]; simp [homogP]
  have h1 : (H.mulVec (homogP p)) 1 = c * (t.2 : ℝ) := by rw [h]; simp [homogP]
  have h2 : (H.mulVec (homogP p)) 2 = c := by rw [h]; simp [homogP]
  simp only [pmap]
  rw [h0, h1, h2, mul_div_cancel_left₀ _ hc, mul_div_cancel_left₀ _ hc]

/-- The modelled getPerspectiveTransform really is the homography mapping
the source quad to the destination quad, for quads in general position
(first three points of each quad affinely independent and the fourth not
on any line through two of them, expressed through the lambda
coefficients). -/
theorem pmap_getPT (s0 s1 s2 s3 t0 t1 t2 t3 : ℚ × ℚ)
    (hds : det3 (homogP s0) (homogP s1) (homogP s2) ≠ 0)
    (hdt : det3 (homogP t0) (homogP t1) (homogP t2) ≠ 0)
    (hls0 : lam0 s0 s1 s2 s3 ≠ 0) (hls1 : lam1 s0 s1 s2 s3 ≠ 0)
    (hls2 : lam2 s0 s1 s2 s3 ≠ 0)
    (hlt0 : lam0 t0 t1 t2 t3 ≠ 0) (hlt1 : lam1 t0 t1 t2 t3 ≠ 0)
    (hlt2 : lam2 t0 t1 t2 t3 ≠ 0) :
    pmap (getPerspectiveTransform s0 s1 s2 s3 t0 t1 t2 t3) s0 = ((t0.1 : ℝ), (t0.2 : ℝ))
    ∧ pmap (getPerspectiveTransform s0 s1 s2 s3 t0 t1 t2 t3) s1 = ((t1.1 : ℝ), (t1.2 : ℝ))
    ∧ pmap (getPerspectiveTransform s0 s1 s2 s3 t0 t1 t2 t3) s2 = ((t2.1 : ℝ), (t2.2 : ℝ))
    ∧ pmap (getPerspectiveTransform s0 s1 s2 s3 t0 t1 t2 t3) s3 = ((t3.1 : ℝ), (t3.2 : ℝ)) := by
  have hMsdet : (quadMat s0 s1 s2 s3).det ≠ 0 := by
    rw [quadMat_det]
    exact mul_ne_zero (mul_ne_zero (mul_ne_zero hls0 hls1) hls2) hds
  have hchain : ∀ v : Fin 3 → ℝ,
      (getPerspectiveTransform s0 s1 s2 s3 t0 t1 t2 t3).mulVec
        ((quadMat s0 s1 s2 s3).mulVec v)
      = (quadMat s0 s1 s2 s3).det • (quadMat t0 t1 t2 t3).mulVec v := by
    intro v
    rw [getPerspectiveTransform, Matrix.mulVec_mulVec, Matrix.mul_assoc,
      Matrix.adjugate_mul, Matrix.mul_smul, Matrix.mul_one,
      Matrix.smul_mulVec_assoc]
  have base : ∀ (e : Fin 3 → ℝ) (ls lt : ℝ) (ps pt : ℚ × ℚ),
      ls ≠ 0 → lt ≠ 0 →
      (quadMat s0 s1 s2 s3).mulVec e = ls • homogP ps →
      (quadMat t0 t1 t2 t3).mulVec e = lt • homogP pt →
      pmap (getPerspectiveTransform s0 s1 s2 s3 t0 t1 t2 t3) ps = ((pt.1 : ℝ), (pt.2 : ℝ)) := by
    intro e ls lt ps pt hls hlt hse hte
    have hinv : homogP ps = ls⁻¹ • (quadMat s0 s1 s2 s3).mulVec e := by
      rw [hse, smul_smul, inv_mul_cancel₀ hls, one_smul]
    refine pmap_of_smul _ ps pt (ls⁻¹ * ((quadMat s0 s1 s2 s3).det * lt)) ?_ ?_
    · exact mul_ne_zero (inv_ne_zero hls) (mul_ne_zero hMsdet hlt)
    · rw [hinv, Matrix.mulVec_smul, hchain, hte, smul_smul, smul_smul, mul_assoc]
  refine ⟨?_, ?_, ?_, ?_⟩
  · exact base ![1, 0, 0] (lam0 s0 s1 s2 s3) (lam0 t0 t1 t2 t3) s0 t0 hls0 hlt0
      (quadMat_mulVec_e0 s0 s1 s2 s3) (quadMat_mulVec_e0 t0 t1 t2 t3)
  · exact base ![0, 1, 0] (lam1 s0 s1 s2 s3) (lam1 t0 t1 t2 t3) s1 t1 hls1 hlt1
      (quadMat_mulVec_e1 s0 s1 s2 s3) (quadMat_mulVec_e1 t0 t1 t2 t3)
  · exact base ![0, 0, 1] (lam2 s0 s1 s2 s3) (lam2 t0 t1 t2 t3) s2 t2 hls2 hlt2
      (quadMat_mulVec_e2 s0 s1 s2 s3) (quadMat_mulVec_e2 t0 t1 t2 t3)
  · exact base ![1, 1, 1] 1 1 s3 t3 one_ne_zero one_ne_zero
      (by rw [quadMat_mulVec_ones s0 s1 s2 s3 hds, one_smul])
      (by rw [quadMat_mulVec_ones t0 t1 t2 t3 hdt, one_smul])

/-! Claim C8: the rectifier's output size, destination rectangle and
homography. -/

/-- Claim C8: with at least 4 detected markers the rectifier takes the
first 4, orders their centroids as TL, TR, BR, BL, sets the destination
width to the ceiling of the larger of the TL-TR and BL-BR distances and
the height to the ceiling of the larger of the TL-BL and TR-BR distances,
and computes the homography carrying the 4 ordered source centroids to
(0,0), (w-1,0), (w-1,h-1), (0,h-1); the mapping property holds whenever
the two quads are in general position (nonzero determinant and lambda
hypotheses). -/
theorem c8_rectifier (ms : List Marker) (tl tr br bl : ℚ × ℚ) (Wd Hd : ℤ)
    (_h4 : 4 ≤ ms.length)
    (horder : _order_centers_tl_tr_br_bl (ms.take 4) = [tl, tr, br, bl])
    (hW : Wd = ⌈max (pxDist tl tr) (pxDist bl br)⌉)
    (hH : Hd = ⌈max (pxDist tl bl) (pxDist tr br)⌉)
    (hds : det3 (homogP tl) (homogP tr) (homogP br) ≠ 0)
    (hdt : det3 (homogP (0, 0)) (homogP ((Wd : ℚ) - 1, 0))
      (homogP ((Wd : ℚ) - 1, (Hd : ℚ) - 1)) ≠ 0)
    (hls0 : lam0 tl tr br bl ≠ 0) (hls1 : lam1 tl tr br bl ≠ 0)
    (hls2 : lam2 tl tr br bl ≠ 0)
    (hlt0 : lam0 (0, 0) ((Wd : ℚ) - 1, 0) ((Wd : ℚ) - 1, (Hd : ℚ) - 1) (0, (Hd : ℚ) - 1) ≠ 0)
    (hlt1 : lam1 (0, 0) ((Wd : ℚ) - 1, 0) ((Wd : ℚ) - 1, (Hd : ℚ) - 1) (0, (Hd : ℚ) - 1) ≠ 0)
    (hlt2 : lam2 (0, 0) ((Wd : ℚ) - 1, 0) ((Wd : ℚ) - 1, (Hd : ℚ) - 1) (0, (Hd : ℚ) - 1) ≠ 0) :
    rectifyCore ms = some (Wd, Hd,
      getPerspectiveTransform tl tr br bl
        (0, 0) ((Wd : ℚ) - 1, 0) ((Wd : ℚ) - 1, (Hd : ℚ) - 1) (0, (Hd : ℚ) - 1))
    ∧ pmap (getPerspectiveTransform tl tr br bl
        (0, 0) ((Wd : ℚ) - 1, 0) ((Wd : ℚ) - 1, (Hd : ℚ) - 1) (0, (Hd : ℚ) - 1)) tl
        = (0, 0)
    ∧ pmap (getPerspectiveTransform tl tr br bl
        (0, 0) ((Wd : ℚ) - 1, 0) ((Wd : ℚ) - 1, (Hd : ℚ) - 1) (0, (Hd : ℚ) - 1)) tr
        = ((Wd : ℝ) - 1, 0)
    ∧ pmap (getPerspectiveTransform tl tr br bl
        (0, 0) ((Wd : ℚ) - 1, 0) ((Wd : ℚ) - 1, (Hd : ℚ) - 1) (0, (Hd : ℚ) - 1)) br
        = ((Wd : ℝ) - 1, (Hd : ℝ) - 1)
    ∧ pmap (getPerspectiveTransform tl tr br bl
        (0, 0) ((Wd : ℚ) - 1, 0) ((Wd : ℚ) - 1, (Hd : ℚ) - 1) (0, (Hd : ℚ) - 1)) bl
        = (0, (Hd : ℝ) - 1) := by
  have hmaps := pmap_getPT tl tr br bl
    (0, 0) ((Wd : ℚ) - 1, 0) ((Wd : ℚ) - 1, (Hd : ℚ) - 1) (0, (Hd : ℚ) - 1)
    hds hdt hls0 hls1 hls2 hlt0 hlt1 hlt2
  refine ⟨?_, ?_, ?_, ?_, ?_⟩
  · rw [rectifyCore, horder, hW, hH]
  · have := hmaps.1
    simpa using this
  · have := hmaps.2.1
    rw [this]
    push_cast
    rfl
  · have := hmaps.2.2.1
    rw [this]
    push_cast
    rfl
  · have := hmaps.2.2.2
    rw [this]
    push_cast
    rfl

/-! Concrete evaluation of the rectifier input fourMarkers. -/

theorem fourMarkers_centroids :
    fourMarkers.map centroid = [(0, 0), (10, 0), (10, 10), (0, 10)] := by
  simp [fourMarkers, mkSq, centroid, Prod.ext_iff]
  norm_num

theorem fourMarkers_order :
    _order_centers_tl_tr_br_bl (fourMarkers.take 4)
      = [(0, 0), (10, 0), (10, 10), (0, 10)] := by
  have htake : fourMarkers.take 4 = fourMarkers := by simp [fourMarkers]
  rw [htake, _order_centers_tl_tr_br_bl, fourMarkers_centroids]
  have hsort : ([((0 : ℚ), (0 : ℚ)), (10, 0), (10, 10), (0, 10)]).insertionSort byY
      = [((0 : ℚ), (0 : ℚ)), (10, 0), (10, 10), (0, 10)] := by
    simp [List.insertionSort, List.orderedInsert, byY]
  rw [hsort]
  norm_num

theorem quadDist_w :
    (⌈max (pxDist ((0 : ℚ), (0 : ℚ)) (10, 0)) (pxDist ((0 : ℚ), (10 : ℚ)) (10, 10))⌉ : ℤ)
      = 10 := by
  rw [pxDist_eq (0, 0) (10, 0) 10 (by norm_num) (by push_cast; norm_num)]
  rw [pxDist_eq (0, 10) (10, 10) 10 (by norm_num) (by push_cast; norm_num)]
  rw [max_self]
  norm_num

theorem quadDist_h :
    (⌈max (pxDist ((0 : ℚ), (0 : ℚ)) (0, 10)) (pxDist ((10 : ℚ), (0 : ℚ)) (10, 10))⌉ : ℤ)
      = 10 := by
  rw [pxDist_eq (0, 0) (0, 10) 10 (by norm_num) (by push_cast; norm_num)]
  rw [pxDist_eq (10, 0) (10, 10) 10 (by norm_num) (by push_cast; norm_num)]
  rw [max_self]
  norm_num

/-- Witness for C8 on fourMarkers: the ordered centroid quad
(0,0),(10,0),(10,10),(0,10) rectifies to a 10 by 10 destination whose
corner correspondences the computed homography realises exactly. -/
theorem c8_witness :
    rectifyCore fourMarkers = some (10, 10, c8H)
    ∧ pmap c8H (0, 0) = (0, 0)
    ∧ pmap c8H (10, 0) = (((10 : ℤ) : ℝ) - 1, 0)
    ∧ pmap c8H (10, 10) = (((10 : ℤ) : ℝ) - 1, ((10 : ℤ) : ℝ) - 1)
    ∧ pmap c8H (0, 10) = (0, ((10 : ℤ) : ℝ) - 1) :=
  c8_rectifier fourMarkers (0, 0) (10, 0) (10, 10) (0, 10) 10 10
    (by simp [fourMarkers])
    fourMarkers_order
    quadDist_w.symm
    quadDist_h.symm
    (by simp [det3, homogP]; try norm_num)
    (by simp [det3, homogP]; try norm_num)
    (by simp [lam0, det3, homogP]; try norm_num)
    (by simp [lam1, det3, homogP]; try norm_num)
    (by simp [lam2, det3, homogP]; try norm_num)
    (by simp [lam0, det3, homogP]; try norm_num)
    (by simp [lam1, det3, homogP]; try norm_num)
    (by simp [lam2, det3, homogP]; try norm_num)

/-! Claim C10: rectification can partially succeed and drop calibration. -/

theorem meanSide_mkSq (cx cy : ℚ) : meanSidePx (mkSq cx cy) = 2 := by
  rw [meanSidePx, mkSq]
  rw [pxDist_eq (cx - 1, cy - 1) (cx + 1, cy - 1) 2 (by norm_num) (by push_cast; ring_nf)]
  rw [pxDist_eq (cx + 1, cy - 1) (cx + 1, cy + 1) 2 (by norm_num) (by push_cast; ring_nf)]
  rw [pxDist_eq (cx + 1, cy + 1) (cx - 1, cy + 1) 2 (by norm_num) (by push_cast; ring_nf)]
  rw [pxDist_eq (cx - 1, cy + 1) (cx - 1, cy - 1) 2 (by norm_num) (by push_cast; ring_nf)]
  rw [npMean_four]
  norm_num

theorem detect_fourMarkers : detect_aruco_scale fourMarkers 1 = some 2 := by
  rw [detect_aruco_scale]
  simp [fourMarkers, meanSide_mkSq, npMean_four]
  norm_num

theorem sT_eval : sT = ⟨some false, some 2, [], 0, none, [], 1, 0, none⟩ := by
  rw [sT, detect_scale]
  simp only [load]
  rw [show tDetect false = fourMarkers from rfl, detect_fourMarkers]
  norm_num

/-- Claim C10: on session sT (previously Scaled at px_per_mm = 2) a
rectification whose warp succeeds but whose marker re-detection on the
warped image finds nothing replaces the working image with the warped one
and sets pixels_per_mm to the absent sentinel, leaving the session
Uncalibrated. -/
theorem c10_partial_rectify :
    sT.px_per_mm = some 2
    ∧ (rectify_topdown sT tDetect tWarp 1).1 = none
    ∧ (rectify_topdown sT tDetect tWarp 1).2.img = some true
    ∧ (rectify_topdown sT tDetect tWarp 1).2.px_per_mm = none := by
  obtain ⟨w, h, H, hcore⟩ : ∃ w h H, rectifyCore fourMarkers = some (w, h, H) :=
    ⟨_, _, _, by rw [rectifyCore, fourMarkers_order]⟩
  have hrw : rectify_topdown_with_aruco tDetect tWarp false 1 = some (true, H, none) := by
    rw [rectify_topdown_with_aruco]
    rw [if_neg (by simp [tDetect, fourMarkers])]
    rw [show tDetect false = fourMarkers from rfl, hcore]
    rfl
  refine ⟨by rw [sT_eval], ?_, ?_, ?_⟩ <;>
    simp only [rectify_topdown, sT_eval, hrw]

end VT
